import Mathlib

/-!
Verification of the boulder CT-submission core against its specification.

The file shallowly embeds the program:
* `core/objects.go` — base64url codec (`base64URLEncode` / `base64URLDecode`),
  the `JSONBuffer` marshalling pair, and `Challenge.RecordsSane`;
* the publisher / SCT codec, whose implementation file is not part of the
  sources at hand (only `publisher/publisher_test.go` is): those operations
  are modelled from the specification text, as marked in their doc comments.

Bytes are `Nat` values below 256; Go strings become `List Char`.
-/

namespace Boulder

/-! ## Base64 codec, from `core/objects.go`

Go's `base64.URLEncoding` uses the URL-safe alphabet with `=` padding.
`base64URLEncode` strips trailing padding (`strings.TrimRight(result, "=")`);
`base64URLDecode` re-adds `(4 - len%4) % 4` padding characters and decodes.
-/

/-- The URL-safe base64 alphabet used by `base64.URLEncoding`. -/
def b64URLAlphabet : List Char :=
  "ABCDEFGHIJKLMNOPQRSTUVWXYZabcdefghijklmnopqrstuvwxyz0123456789-_".toList

/-- The standard base64 alphabet used by `base64.StdEncoding`. -/
def b64StdAlphabet : List Char :=
  "ABCDEFGHIJKLMNOPQRSTUVWXYZabcdefghijklmnopqrstuvwxyz0123456789+/".toList

/-- Character for a six-bit group, given an alphabet. -/
def sextetCharIn (alpha : List Char) (s : Nat) : Char := alpha.getD s 'A'

/-- Character for a six-bit group in the URL-safe alphabet. -/
def sextetChar (s : Nat) : Char := sextetCharIn b64URLAlphabet s

/-- Position of a character in a list, or `none`. -/
def lookupIdx (c : Char) : List Char → Nat → Option Nat
  | [], _ => none
  | a :: rest, i => if a = c then some i else lookupIdx c rest (i + 1)

/-- Six-bit value of a URL-safe base64 character, or `none` for a
character outside the alphabet (this is how the Go decoder rejects
bad input, `=` included). -/
def charSextet (c : Char) : Option Nat := lookupIdx c b64URLAlphabet 0

/-- Base64 encoding with padding, over an abstract alphabet: the group
structure of Go's `Encoding.EncodeToString`.  Three input bytes become four
alphabet characters; a trailing byte becomes two characters and `==`; two
trailing bytes become three characters and `=`. -/
def encodeGroupsIn (alpha : List Char) : List Nat → List Char
  | [] => []
  | [b0] =>
      [sextetCharIn alpha (b0 / 4), sextetCharIn alpha (b0 % 4 * 16), '=', '=']
  | [b0, b1] =>
      [sextetCharIn alpha (b0 / 4), sextetCharIn alpha (b0 % 4 * 16 + b1 / 16),
       sextetCharIn alpha (b1 % 16 * 4), '=']
  | b0 :: b1 :: b2 :: rest =>
      sextetCharIn alpha (b0 / 4) :: sextetCharIn alpha (b0 % 4 * 16 + b1 / 16) ::
      sextetCharIn alpha (b1 % 16 * 4 + b2 / 64) :: sextetCharIn alpha (b2 % 64) ::
      encodeGroupsIn alpha rest

/-- `base64.URLEncoding.EncodeToString`. -/
def encodeGroups : List Nat → List Char := encodeGroupsIn b64URLAlphabet

/-- `base64.StdEncoding.EncodeToString`, as a character list. -/
def base64StdEncode (data : List Nat) : List Char := encodeGroupsIn b64StdAlphabet data

/-- `strings.TrimRight(s, "=")`: drop every trailing `=`. -/
def trimEq (l : List Char) : List Char := (l.reverse.dropWhile (· == '=')).reverse

/-- `base64URLEncode` from `core/objects.go`: URL-safe encode, then strip
the padding. -/
def base64URLEncode (data : List Nat) : List Char := trimEq (encodeGroups data)

/-- One four-character group of Go's base64 decoder.  `isFinal` tells
whether this is the last group; padding characters are only legal there. -/
def decodeQuad (c0 c1 c2 c3 : Char) (isFinal : Bool) : Option (List Nat) :=
  match charSextet c0, charSextet c1 with
  | some s0, some s1 =>
    if c2 = '=' then
      if isFinal ∧ c3 = '=' then some [s0 * 4 + s1 / 16] else none
    else
      match charSextet c2 with
      | some s2 =>
        if c3 = '=' then
          if isFinal then some [s0 * 4 + s1 / 16, s1 % 16 * 16 + s2 / 4] else none
        else
          match charSextet c3 with
          | some s3 => some [s0 * 4 + s1 / 16, s1 % 16 * 16 + s2 / 4, s2 % 4 * 64 + s3]
          | none => none
      | none => none
  | _, _ => none

/-- `base64.URLEncoding.DecodeString`: groups of four characters, padding
only in the final group, any character outside the alphabet rejected. -/
def decodeGroups : List Char → Option (List Nat)
  | [] => some []
  | c0 :: c1 :: c2 :: c3 :: rest =>
      match decodeQuad c0 c1 c2 c3 rest.isEmpty with
      | some g =>
        match decodeGroups rest with
        | some r => some (g ++ r)
        | none => none
      | none => none
  | _ => none

/-- Padding re-added by `base64URLDecode`: `(4 - len(data)%4) % 4` copies
of `=`. -/
def addPadding (l : List Char) : List Char :=
  l ++ List.replicate ((4 - l.length % 4) % 4) '='

/-- `base64URLDecode` from `core/objects.go`: restore padding, then decode. -/
def base64URLDecode (l : List Char) : Option (List Nat) := decodeGroups (addPadding l)

/-- `JSONBuffer.MarshalJSON`: `json.Marshal` of the padding-stripped base64
string.  Base64 output needs no JSON escaping, so the marshalled bytes are
the quoted string. -/
def jsonBufferMarshal (jb : List Nat) : List Char :=
  '"' :: (base64URLEncode jb ++ ['"'])

/-- `JSONBuffer.UnmarshalJSON`: parse the JSON string (a quote, unescaped
characters, a closing quote), then `base64URLDecode` it. -/
def jsonBufferUnmarshal (data : List Char) : Option (List Nat) :=
  match data with
  | '"' :: rest =>
      if rest.getLast? = some '"' ∧ '"' ∉ rest.dropLast then
        base64URLDecode rest.dropLast
      else none
  | _ => none

/-! ## Challenge objects, from `core/objects.go` -/

/-- The challenge type constants of `core/objects.go`. -/
def ChallengeTypeHTTP01 : String := "http-01"

/-- `tls-sni-01`. -/
def ChallengeTypeTLSSNI01 : String := "tls-sni-01"

/-- `dns-01`. -/
def ChallengeTypeDNS01 : String := "dns-01"

/-- `core.ValidationRecord`.  `net.IP` is a nil-able byte slice, embedded as
`Option (List Nat)` so the `== nil` test of the source is expressible. -/
structure ValidationRecord where
  URL : String
  Hostname : String
  Port : String
  AddressesResolved : List (List Nat)
  AddressUsed : Option (List Nat)
deriving DecidableEq

/-- The fields of `core.Challenge` that `RecordsSane` reads.  A nil slice
and an empty slice are indistinguishable to the source (`== nil || len == 0`),
so `ValidationRecord` is a plain list. -/
structure Challenge where
  type : String
  ValidationRecord : List ValidationRecord
deriving DecidableEq

/-- The per-record check of the `http-01` branch of `RecordsSane`: the loop
returns `false` as soon as one record has an empty URL, hostname or port, a
nil used address, or no resolved addresses. -/
def httpRecordOK (rec : ValidationRecord) : Bool :=
  ¬(rec.URL = "" ∨ rec.Hostname = "" ∨ rec.Port = "" ∨ rec.AddressUsed = none ∨
    rec.AddressesResolved.length = 0)

/-- The field checks the `tls-sni-01` branch performs on `ValidationRecord[0]`. -/
def tlssniRecordOK (rec : ValidationRecord) : Bool :=
  ¬(rec.URL ≠ "" ∨ rec.Hostname = "" ∨ rec.Port = "" ∨ rec.AddressUsed = none ∨
    rec.AddressesResolved.length = 0)

/-- `Challenge.RecordsSane` from `core/objects.go`.  The source indexes
`ch.ValidationRecord[0]` in the `tls-sni-01` branch; that partial access is
embedded as `head?`, with `none` standing for an out-of-bounds access, so
totality of the source is the statement that this function never returns
`none`. -/
def RecordsSane (ch : Challenge) : Option Bool :=
  if ch.type ≠ ChallengeTypeDNS01 ∧ ch.ValidationRecord.length = 0 then
    some false
  else if ch.type = ChallengeTypeHTTP01 then
    some (ch.ValidationRecord.all httpRecordOK)
  else if ch.type = ChallengeTypeTLSSNI01 then
    if ch.ValidationRecord.length > 1 then some false
    else
      match ch.ValidationRecord.head? with
      | none => none
      | some rec => some (tlssniRecordOK rec)
  else if ch.type = ChallengeTypeDNS01 then some true
  else some false

/-! ## SCT codec

The implementation file of the codec is not among the sources (only its
tests call `Serialize` and `VerifySignature`), so the definitions below are
modelled from the specification. -/

/-- Big-endian byte string of width `w` for `n % 256 ^ w`. -/
def beBytes : Nat → Nat → List Nat
  | 0, _ => []
  | w + 1, n => beBytes w (n / 256) ++ [n % 256]

/-- Value of a big-endian byte string. -/
def beVal (l : List Nat) : Nat := l.foldl (fun a b => a * 256 + b) 0

/-- The fields of `core.SignedCertificateTimestamp` that the codec reads. -/
structure SCTData where
  version : Nat
  timestamp : Nat
  extensions : List Nat
deriving DecidableEq

/-- Codec errors of the specification's §4.1.2 / §7 taxonomy. -/
inductive CodecError
  | inputTooLarge
  | truncated
  | unsupportedAlg
  | malformedDSA
  | invalid
deriving DecidableEq

/-- Modelled from the spec: `SignedCertificateTimestamp.Serialize`, the
signature-input serializer (§4.1.1), absent from the sources.  Fails with
`InputTooLarge` if `len(cert) ≥ 2²⁴` or `len(extensions) ≥ 2¹⁶`; otherwise
emits `version ∥ signature_type=0 ∥ timestamp(u64) ∥ entry_type=0(u16) ∥
cert_length(u24) ∥ cert ∥ extensions_length(u16) ∥ extensions`, all
integers big-endian. -/
def serializeSignatureInput (sct : SCTData) (cert : List Nat) :
    Except CodecError (List Nat) :=
  if 2 ^ 24 ≤ cert.length ∨ 2 ^ 16 ≤ sct.extensions.length then
    .error .inputTooLarge
  else
    .ok (sct.version % 256 :: 0 :: beBytes 8 sct.timestamp ++ beBytes 2 0 ++
         beBytes 3 cert.length ++ cert ++
         beBytes 2 sct.extensions.length ++ sct.extensions)

/-- Modelled from the spec: the DigitallySigned envelope parser of
`VerifySignature` (§4.1.2 / §6.2), absent from the sources.  A signature is
the 4-byte prefix `{hash_algo, sig_algo, len_hi, len_lo}` followed by the
DER `ECDSA-Sig-Value`.  Fewer than 4 bytes, or an embedded length larger
than the remaining bytes, is `SignatureTruncated`; a prefix other than
`{4, 3}` is `UnsupportedSignatureAlgorithm`. -/
def parseEnvelope : List Nat → Except CodecError (List Nat)
  | h :: a :: hi :: lo :: rest =>
    if rest.length < hi * 256 + lo then .error .truncated
    else if h = 4 ∧ a = 3 then .ok (rest.take (hi * 256 + lo))
    else .error .unsupportedAlg
  | _ => .error .truncated

/-- Length embedded in the first four envelope bytes (0 when there are
fewer than four). -/
def embeddedLen : List Nat → Nat
  | _ :: _ :: hi :: lo :: _ => hi * 256 + lo
  | _ => 0

/-! ## Log client and publisher

The publisher implementation file is likewise absent from the sources (only
`publisher/publisher_test.go` is present), so the submission pipeline is
modelled from the specification's §4.2–§4.3: per-log submission with at
most `max_retries + 1` attempts, retryable statuses `{408, 500, 502, 503,
504}` and connection/timeout transport errors, inter-attempt sleep
`max(backoff, retry_after)`, one failure log line per failed per-log task,
and at-least-one-success aggregation in `SubmitToCT`. -/

/-- The raw SCT of a decoded `add-chain` response.  The `signature` field
holds the base64-decoded DigitallySigned envelope bytes. -/
structure RawSCT where
  version : Nat
  timestamp : Nat
  extensions : List Nat
  signature : List Nat
deriving DecidableEq

/-- What one HTTP attempt observes.  A `200` whose body does not decode is
`ok none`; `status` carries the integer-second `Retry-After` header when
present (absent or non-integer is `none`); `connTimeout` tells whether a
transport failure was a connection/timeout error. -/
inductive Response
  | ok (body : Option RawSCT)
  | status (code : Nat) (retryAfter : Option Nat)
  | transport (connTimeout : Bool)
deriving DecidableEq

/-- Retryable HTTP statuses: `{408, 500, 502, 503, 504}`. -/
def retryableStatus (c : Nat) : Bool :=
  c == 408 || c == 500 || c == 502 || c == 503 || c == 504

/-- An attempt is retryable iff its status is retryable or the transport
failed with a connection/timeout error. -/
def isRetryable : Response → Bool
  | .ok _ => false
  | .status c _ => retryableStatus c
  | .transport connTimeout => connTimeout

/-- Seconds derived from the `Retry-After` header: the header value when
present, otherwise 0. -/
def retryAfterOf : Response → Nat
  | .status _ r => r.getD 0
  | _ => 0

/-- The log client's error taxonomy (§4.2.3). -/
inductive SubmitError
  | transportE
  | httpStatus (code : Nat)
  | decodeFailure
  | verificationFailure (e : CodecError)
deriving DecidableEq

deriving instance DecidableEq for Except

/-- Outcome of one per-log submission: the result, how many HTTP attempts
were made, and the sleeps (in seconds) taken between consecutive attempts. -/
structure LogOutcome where
  result : Except SubmitError RawSCT
  attempts : Nat
  sleeps : List Nat
deriving DecidableEq

/-- Terminal handling of a response when no retry will follow: decode
failures and non-200 statuses are fatal; a decoded SCT is passed to the
verifier. -/
def handleFinal (verify : RawSCT → Except CodecError Unit) :
    Response → Except SubmitError RawSCT
  | .ok none => .error .decodeFailure
  | .ok (some sct) =>
    match verify sct with
    | .ok _ => .ok sct
    | .error e => .error (.verificationFailure e)
  | .status c _ => .error (.httpStatus c)
  | .transport _ => .error .transportE

/-- Modelled from the spec: the per-log retry loop (§4.2.2), absent from the
sources.  `server i` is the response to attempt number `i` (starting at
`idx`); `retriesLeft` retries remain.  A non-retryable response, or a
retryable one with no retries left, terminates; otherwise the client sleeps
`max(backoff, retry_after)` and tries again. -/
def submitAttempts (verify : RawSCT → Except CodecError Unit) (backoff : Nat)
    (server : Nat → Response) (idx : Nat) : Nat → LogOutcome
  | 0 => ⟨handleFinal verify (server idx), 1, []⟩
  | n + 1 =>
    let r := server idx
    if isRetryable r then
      let rest := submitAttempts verify backoff server (idx + 1) n
      ⟨rest.result, rest.attempts + 1, Nat.max backoff (retryAfterOf r) :: rest.sleeps⟩
    else
      ⟨handleFinal verify r, 1, []⟩

/-- One whole per-log submission with `retries = max_retries`. -/
def submitOnce (verify : RawSCT → Except CodecError Unit) (backoff : Nat)
    (server : Nat → Response) (retries : Nat) : LogOutcome :=
  submitAttempts verify backoff server 0 retries

/-- A per-log log description: URI and (abstract) key. -/
structure LogDescription where
  URI : String
deriving DecidableEq

/-- The publisher's state after construction: base64 issuer bundle, log
descriptions, parsed backoff (seconds), and retry budget. -/
structure PublisherImpl where
  issuerBundle : List (List Char)
  ctLogs : List LogDescription
  backoff : Nat
  retries : Nat

/-- Human-readable message for an error kind; the truncated-signature kind
renders to the exact text the tests grep for. -/
def errMsg : SubmitError → String
  | .transportE => "Transport failure"
  | .httpStatus c => "HTTP status " ++ toString c
  | .decodeFailure => "Failed to decode SCT receipt"
  | .verificationFailure .truncated => "SCT signature is truncated"
  | .verificationFailure .unsupportedAlg => "unsupported signature algorithm"
  | .verificationFailure .malformedDSA => "malformed DSA signature"
  | .verificationFailure .invalid => "SCT signature failed to verify"
  | .verificationFailure .inputTooLarge => "signature input too large"

/-- A structured failure log line: which log URI failed and with what kind. -/
structure FailLine where
  uri : String
  kind : SubmitError
deriving DecidableEq

/-- Rendering of a failure line: the stable prefix, the log URI, the kind. -/
def renderFail (l : FailLine) : String :=
  "Unable to submit certificate to CT log " ++ l.uri ++ ": " ++ errMsg l.kind

/-- Log lines emitted by one terminal per-log outcome: exactly one failure
line on failure, none on success (§4.3.3). -/
def logLines (uri : String) (o : LogOutcome) : List FailLine :=
  match o.result with
  | .ok _ => []
  | .error e => [⟨uri, e⟩]

/-- Aggregate result of `SubmitToCT` (§4.3.1 / §7). -/
inductive AggError
  | malformedCertificate
  | noLogsConfigured
  | perLog (errs : List SubmitError)
deriving DecidableEq

/-- Chain built for submission: the base64 leaf first, then every issuer
bundle entry in order (§4.3.1 step 2). -/
def buildChain (leafDER : List Nat) (bundle : List (List Char)) :
    List (List Char) :=
  base64StdEncode leafDER :: bundle

/-- Everything observable about one `SubmitToCT` call: the returned error
(`none` is Go's `nil`), the emitted failure lines, and the chain submitted
to every log. -/
structure CTRun where
  ret : Option AggError
  lines : List FailLine
  chain : List (List Char)
deriving DecidableEq

/-- `true` iff the per-log submission succeeded. -/
def resOk : Except SubmitError RawSCT → Bool
  | .ok _ => true
  | .error _ => false

/-- The error of a failed per-log submission. -/
def errOf : Except SubmitError RawSCT → Option SubmitError
  | .ok _ => none
  | .error e => some e

/-- Per-log outcomes of one `SubmitToCT` call: log `i` talks to server
`servers i`. -/
def perLogResults (pub : PublisherImpl) (verify : RawSCT → Except CodecError Unit)
    (servers : Nat → Nat → Response) : List (String × LogOutcome) :=
  pub.ctLogs.enum.map fun p =>
    (p.2.URI, submitOnce verify pub.backoff (servers p.1) pub.retries)

/-- Modelled from the spec: `PublisherImpl.SubmitToCT` (§4.3.1), absent
from the sources.  `parseOK` is the outcome of the x509 parse of step 1
(the parser itself is outside the model); each log is submitted to, every
terminal failure logs one line, and the call returns `nil` iff at least one
per-log submission succeeded, the per-log error set otherwise. -/
def SubmitToCT (pub : PublisherImpl) (verify : RawSCT → Except CodecError Unit)
    (servers : Nat → Nat → Response) (parseOK : Bool) (leafDER : List Nat) :
    CTRun :=
  if parseOK = false then ⟨some .malformedCertificate, [], []⟩
  else if pub.ctLogs.isEmpty then
    ⟨some .noLogsConfigured, [], buildChain leafDER pub.issuerBundle⟩
  else
    let rs := perLogResults pub verify servers
    { ret := if rs.any (fun p => resOk p.2.result) then none
             else some (.perLog (rs.filterMap fun p => errOf p.2.result)),
      lines := (rs.map fun p => logLines p.1 p.2).flatten,
      chain := buildChain leafDER pub.issuerBundle }

/-- Modelled from the spec: the signature check `VerifySignature` performs
after envelope parsing, with the DER/ECDSA step abstracted as `derVerify`
(elliptic-curve arithmetic is outside the model). -/
def verifySCT (derVerify : List Nat → Except CodecError Unit) (sct : RawSCT) :
    Except CodecError Unit :=
  match parseEnvelope sct.signature with
  | .error e => .error e
  | .ok der => derVerify der

/-- Padding characters `encodeGroupsIn` appends: none for a multiple of
three bytes, two for one trailing byte, one for two. -/
def padCount : List Nat → Nat
  | [] => 0
  | [_] => 2
  | [_, _] => 1
  | _ :: _ :: _ :: rest => padCount rest

/-! ## Supporting lemmas -/

/-- Induction on a byte list in the three-byte groups of the base64 codec. -/
theorem chunk3Induction (P : List Nat → Prop) (h0 : P []) (h1 : ∀ a, P [a])
    (h2 : ∀ a b, P [a, b])
    (h3 : ∀ a b c rest, P rest → P (a :: b :: c :: rest)) : ∀ l, P l
  | [] => h0
  | [a] => h1 a
  | [a, b] => h2 a b
  | a :: b :: c :: rest => h3 a b c rest (chunk3Induction P h0 h1 h2 h3 rest)

theorem beBytes_length : ∀ w n, (beBytes w n).length = w := by
  intro w
  induction w with
  | zero => intro n; rfl
  | succ w ih => intro n; simp [beBytes, ih]

theorem beVal_append_single (l : List Nat) (b : Nat) :
    beVal (l ++ [b]) = beVal l * 256 + b := by
  simp [beVal, List.foldl_append]

theorem beVal_beBytes : ∀ w n, beVal (beBytes w n) = n % 256 ^ w := by
  intro w
  induction w with
  | zero => intro n; simp [beBytes, beVal, Nat.mod_one]
  | succ w ih =>
    intro n
    rw [beBytes, beVal_append_single, ih]
    rw [show (256 : Nat) ^ (w + 1) = 256 * 256 ^ w by ring, Nat.mod_mul]
    omega

theorem beBytes_two_zero : beBytes 2 0 = [0, 0] := by
  norm_num [beBytes]

/-! ## C10: `Challenge.RecordsSane` is total -/

/-- C10: `Challenge.RecordsSane` is total — it never returns `none` (the
marker for an out-of-bounds `ValidationRecord[0]` access), and for every
challenge whose type is not `dns-01` an empty `ValidationRecord` makes it
return `false` before any element access. -/
theorem recordsSane_total (ch : Challenge) :
    (RecordsSane ch).isSome = true ∧
    (ch.type ≠ ChallengeTypeDNS01 → ch.ValidationRecord = [] →
      RecordsSane ch = some false) := by
  obtain ⟨ty, vr⟩ := ch
  constructor
  · unfold RecordsSane
    split
    · rfl
    next hguard =>
      split
      · rfl
      · split
        next htls =>
          split
          · rfl
          next hlen =>
            cases vr with
            | nil =>
              exact absurd ⟨by simp_all [ChallengeTypeTLSSNI01, ChallengeTypeDNS01], rfl⟩ hguard
            | cons r t => rfl
        · split
          · rfl
          · rfl
  · intro hty hvr
    unfold RecordsSane
    rw [if_pos ⟨hty, by simpa using hvr⟩]

/-- C10 witness: a `tls-sni-01` challenge with one validation record. -/
theorem recordsSane_total_check :
    (RecordsSane ⟨"tls-sni-01", [⟨"", "h", "p", [[127, 0, 0, 1]], some [127, 0, 0, 1]⟩]⟩).isSome
        = true ∧
    (RecordsSane ⟨"tls-sni-01", []⟩ = some false) :=
  ⟨(recordsSane_total _).1,
   (recordsSane_total ⟨"tls-sni-01", []⟩).2 (by decide) rfl⟩

/-! ## C6: the signature-input serializer -/

/-- C6: `Serialize` fails with `InputTooLarge` exactly when
`len(cert) ≥ 2²⁴` or `len(extensions) ≥ 2¹⁶`; otherwise it emits the
RFC 6962 concatenation `version ∥ 0 ∥ timestamp(u64) ∥ 0(u16) ∥
cert_length(u24) ∥ cert ∥ extensions_length(u16) ∥ extensions`, with all
integers big-endian. -/
theorem serialize_contract (sct : SCTData) (cert : List Nat) :
    (serializeSignatureInput sct cert = .error .inputTooLarge ↔
      2 ^ 24 ≤ cert.length ∨ 2 ^ 16 ≤ sct.extensions.length) ∧
    (cert.length < 2 ^ 24 → sct.extensions.length < 2 ^ 16 →
      serializeSignatureInput sct cert =
        .ok (sct.version % 256 :: 0 :: beBytes 8 sct.timestamp ++ [0, 0] ++
             beBytes 3 cert.length ++ cert ++
             beBytes 2 sct.extensions.length ++ sct.extensions) ∧
      beVal (beBytes 8 sct.timestamp) = sct.timestamp % 2 ^ 64 ∧
      beVal (beBytes 3 cert.length) = cert.length ∧
      beVal (beBytes 2 sct.extensions.length) = sct.extensions.length) := by
  constructor
  · unfold serializeSignatureInput
    split
    next h => simpa using h
    next h => exact iff_of_false (by simp) h
  · intro hc he
    refine ⟨?_, ?_, ?_, ?_⟩
    · unfold serializeSignatureInput
      rw [if_neg (by omega), beBytes_two_zero]
    · rw [beVal_beBytes]; norm_num
    · rw [beVal_beBytes]; exact Nat.mod_eq_of_lt (by norm_num at hc ⊢; omega)
    · rw [beVal_beBytes]; exact Nat.mod_eq_of_lt (by norm_num at he ⊢; omega)

/-- C6 witness: a three-byte certificate with no extensions. -/
theorem serialize_contract_check :
    (3 : Nat) < 2 ^ 24 ∧ (0 : Nat) < 2 ^ 16 ∧
    serializeSignatureInput ⟨0, 1337, []⟩ [1, 2, 3] =
      .ok [0, 0, 0, 0, 0, 0, 0, 0, 5, 57, 0, 0, 0, 0, 3, 1, 2, 3, 0, 0] := by
  refine ⟨by norm_num, by norm_num, ?_⟩
  have h := (serialize_contract ⟨0, 1337, []⟩ [1, 2, 3]).2 (by norm_num) (by norm_num)
  rw [h.1]
  rfl

/-! ## Retry-loop lemmas -/

theorem submitAttempts_not_retryable (verify : RawSCT → Except CodecError Unit)
    (backoff : Nat) (server : Nat → Response) (idx n : Nat)
    (h : isRetryable (server idx) = false) :
    submitAttempts verify backoff server idx n =
      ⟨handleFinal verify (server idx), 1, []⟩ := by
  cases n with
  | zero => rfl
  | succ n => simp [submitAttempts, h]

theorem submitAttempts_attempts_le (verify : RawSCT → Except CodecError Unit)
    (backoff : Nat) (server : Nat → Response) :
    ∀ n idx, (submitAttempts verify backoff server idx n).attempts ≤ n + 1 := by
  intro n
  induction n with
  | zero => intro idx; exact Nat.le_refl 1
  | succ n ih =>
    intro idx
    by_cases h : isRetryable (server idx) = true
    · simpa [submitAttempts, h] using ih (idx + 1)
    · rw [submitAttempts_not_retryable verify backoff server idx (n + 1)
        (by simpa using h)]
      show (1 : Nat) ≤ n + 1 + 1
      omega

theorem submitAttempts_sleeps_len (verify : RawSCT → Except CodecError Unit)
    (backoff : Nat) (server : Nat → Response) :
    ∀ n idx, (submitAttempts verify backoff server idx n).sleeps.length + 1 =
      (submitAttempts verify backoff server idx n).attempts := by
  intro n
  induction n with
  | zero => intro idx; rfl
  | succ n ih =>
    intro idx
    by_cases h : isRetryable (server idx) = true
    · simpa [submitAttempts, h] using ih (idx + 1)
    · rw [submitAttempts_not_retryable verify backoff server idx (n + 1)
        (by simpa using h)]
      rfl

theorem submitAttempts_sleeps_mem (verify : RawSCT → Except CodecError Unit)
    (backoff : Nat) (server : Nat → Response) :
    ∀ n idx s, s ∈ (submitAttempts verify backoff server idx n).sleeps →
      ∃ i, isRetryable (server i) = true ∧
        s = Nat.max backoff (retryAfterOf (server i)) := by
  intro n
  induction n with
  | zero => intro idx s hs; simp [submitAttempts] at hs
  | succ n ih =>
    intro idx s hs
    by_cases h : isRetryable (server idx) = true
    · simp only [submitAttempts, h, if_pos] at hs
      rcases List.mem_cons.mp hs with h1 | h2
      · exact ⟨idx, h, h1⟩
      · exact ih (idx + 1) s h2
    · rw [submitAttempts_not_retryable verify backoff server idx (n + 1)
        (by simpa using h)] at hs
      simp at hs

theorem submitAttempts_const408 (verify : RawSCT → Except CodecError Unit)
    (backoff : Nat) (server : Nat → Response)
    (h408 : ∀ i, server i = Response.status 408 none) :
    ∀ n idx, (submitAttempts verify backoff server idx n).attempts = n + 1 ∧
      (submitAttempts verify backoff server idx n).result =
        .error (.httpStatus 408) := by
  intro n
  induction n with
  | zero =>
    intro idx
    refine ⟨rfl, ?_⟩
    show handleFinal verify (server idx) = _
    rw [h408 idx]
    rfl
  | succ n ih =>
    intro idx
    have hr : isRetryable (server idx) = true := by
      rw [h408 idx]; rfl
    have := ih (idx + 1)
    simp only [submitAttempts, hr, if_pos]
    exact ⟨by rw [this.1], this.2⟩

/-- One per-log result for a publisher with exactly one configured log. -/
theorem perLogResults_single (uri : String) (bundle : List (List Char))
    (backoff retries : Nat) (verify : RawSCT → Except CodecError Unit)
    (servers : Nat → Nat → Response) :
    perLogResults ⟨bundle, [⟨uri⟩], backoff, retries⟩ verify servers =
      [(uri, submitOnce verify backoff (servers 0) retries)] := by
  simp [perLogResults, List.enum]

/-! ## C2: retry bound -/

/-- C2: every single-log submission makes at most `max_retries + 1` HTTP
attempts; against a server answering 408 on every attempt, exactly
`max_retries + 1` attempts are made, the submission fails with
`HTTPStatus 408`, and the publisher logs exactly one failure line. -/
theorem submit_retry_bound (verify : RawSCT → Except CodecError Unit)
    (backoff retries : Nat) :
    (∀ server, (submitOnce verify backoff server retries).attempts ≤ retries + 1) ∧
    (∀ server, (∀ i, server i = Response.status 408 none) →
      (submitOnce verify backoff server retries).attempts = retries + 1 ∧
      (submitOnce verify backoff server retries).result =
        .error (.httpStatus 408)) ∧
    (∀ (uri : String) (bundle : List (List Char)) servers (leafDER : List Nat),
      (∀ i j, servers i j = Response.status 408 none) →
      (SubmitToCT ⟨bundle, [⟨uri⟩], backoff, retries⟩ verify servers true
          leafDER).lines = [⟨uri, .httpStatus 408⟩]) := by
  refine ⟨?_, ?_, ?_⟩
  · intro server
    exact submitAttempts_attempts_le verify backoff server retries 0
  · intro server h408
    exact submitAttempts_const408 verify backoff server h408 retries 0
  · intro uri bundle servers leafDER h408
    have hres := (submitAttempts_const408 verify backoff (servers 0)
      (fun i => h408 0 i) retries 0).2
    simp only [SubmitToCT]
    rw [if_neg (by simp), if_neg (by simp)]
    rw [perLogResults_single]
    simp [logLines, submitOnce] at hres ⊢
    rw [hres]

/-- C2 witness: `max_retries = 2` against an always-408 server. -/
theorem submit_retry_bound_check :
    (∀ i, (fun _ : Nat => Response.status 408 none) i = Response.status 408 none) ∧
    (submitOnce (fun _ => .ok ()) 0 (fun _ => Response.status 408 none) 2).attempts = 3 ∧
    (SubmitToCT ⟨[], [⟨"http://localhost"⟩], 0, 2⟩ (fun _ => .ok ())
        (fun _ _ => Response.status 408 none) true []).lines =
      [⟨"http://localhost", .httpStatus 408⟩] :=
  ⟨fun _ => rfl,
   ((submit_retry_bound (fun _ => .ok ()) 0 2).2.1 _ (fun _ => rfl)).1,
   (submit_retry_bound (fun _ => .ok ()) 0 2).2.2 "http://localhost" []
     (fun _ _ => Response.status 408 none) [] (fun _ _ => rfl)⟩

/-! ## C5: Retry-After floor -/

theorem sum_le_of_mem (N : Nat) :
    ∀ l : List Nat, (∀ s ∈ l, N ≤ s) → N * l.length ≤ l.sum := by
  intro l
  induction l with
  | nil => intro _; simp
  | cons a t ih =>
    intro h
    have ha := h a (List.mem_cons_self a t)
    have ht := ih fun s hs => h s (List.mem_cons_of_mem a hs)
    simp only [List.sum_cons, List.length_cons]
    calc N * (t.length + 1) = N * t.length + N := by ring
    _ ≤ t.sum + a := Nat.add_le_add ht ha
    _ = a + t.sum := by ring

/-- C5: when every retryable response carries `Retry-After: N`, each
inter-attempt sleep equals `max(backoff, N)`, there is one sleep fewer than
attempts, and the total slept time is at least `N × (attempts − 1)`. -/
theorem retry_after_floor (verify : RawSCT → Except CodecError Unit)
    (backoff N retries : Nat) (server : Nat → Response)
    (hra : ∀ i, isRetryable (server i) = true → retryAfterOf (server i) = N) :
    (∀ s ∈ (submitOnce verify backoff server retries).sleeps,
        s = Nat.max backoff N) ∧
    (submitOnce verify backoff server retries).sleeps.length + 1 =
      (submitOnce verify backoff server retries).attempts ∧
    N * ((submitOnce verify backoff server retries).attempts - 1) ≤
      (submitOnce verify backoff server retries).sleeps.sum := by
  have hmem : ∀ s ∈ (submitOnce verify backoff server retries).sleeps,
      s = Nat.max backoff N := by
    intro s hs
    obtain ⟨i, hi, hvi⟩ :=
      submitAttempts_sleeps_mem verify backoff server retries 0 s hs
    rw [hvi, hra i hi]
  have hlen : (submitOnce verify backoff server retries).sleeps.length + 1 =
      (submitOnce verify backoff server retries).attempts :=
    submitAttempts_sleeps_len verify backoff server retries 0
  refine ⟨hmem, hlen, ?_⟩
  have hsum := sum_le_of_mem N (submitOnce verify backoff server retries).sleeps
    (fun s hs => (hmem s hs).symm ▸ Nat.le_max_right backoff N)
  calc N * ((submitOnce verify backoff server retries).attempts - 1)
      = N * (submitOnce verify backoff server retries).sleeps.length := by
        rw [← hlen]; simp
    _ ≤ (submitOnce verify backoff server retries).sleeps.sum := hsum

/-- C5 witness: two 408 responses with `Retry-After: 2`, then success,
with `max_retries = 2` and zero backoff: two sleeps of 2 seconds. -/
theorem retry_after_floor_check :
    (∀ i, isRetryable ((fun j => if j < 2 then Response.status 408 (some 2)
        else Response.ok none) i) = true →
      retryAfterOf ((fun j => if j < 2 then Response.status 408 (some 2)
        else Response.ok none) i) = 2) ∧
    2 * ((submitOnce (fun _ => .ok ()) 0
        (fun j => if j < 2 then Response.status 408 (some 2)
          else Response.ok none) 2).attempts - 1) ≤
      (submitOnce (fun _ => .ok ()) 0
        (fun j => if j < 2 then Response.status 408 (some 2)
          else Response.ok none) 2).sleeps.sum :=
  ⟨by
    intro i hi
    by_cases h : i < 2
    · simp [h, retryAfterOf]
    · simp [h, isRetryable] at hi,
   (retry_after_floor (fun _ => .ok ()) 0 2 2 _
     (by
      intro i hi
      by_cases h : i < 2
      · simp [h, retryAfterOf]
      · simp [h, isRetryable] at hi)).2.2⟩

/-! ## C1: at-least-one-success aggregation -/

theorem filterMap_errOf_length :
    ∀ l : List (String × LogOutcome), (∀ p ∈ l, resOk p.2.result = false) →
      (l.filterMap fun p => errOf p.2.result).length = l.length := by
  intro l
  induction l with
  | nil => intro _; rfl
  | cons p t ih =>
    intro h
    have hp := h p (List.mem_cons_self p t)
    have ht := ih fun q hq => h q (List.mem_cons_of_mem p hq)
    cases hres : p.2.result with
    | ok sct => rw [hres] at hp; simp [resOk] at hp
    | error e =>
      rw [List.filterMap_cons]
      have heo : errOf p.2.result = some e := by rw [hres]; rfl
      rw [heo]
      simp [ht]

theorem perLogResults_length (pub : PublisherImpl)
    (verify : RawSCT → Except CodecError Unit) (servers : Nat → Nat → Response) :
    (perLogResults pub verify servers).length = pub.ctLogs.length := by
  simp [perLogResults]

/-- C1: with a well-formed leaf and at least one configured log,
`SubmitToCT` returns `nil` as soon as one per-log submission succeeded,
even if every other log failed; when no submission succeeds it returns the
per-log errors, one per configured log. -/
theorem submitToCT_at_least_one (pub : PublisherImpl)
    (verify : RawSCT → Except CodecError Unit) (servers : Nat → Nat → Response)
    (leafDER : List Nat) (hlogs : pub.ctLogs ≠ []) :
    ((∃ p ∈ perLogResults pub verify servers, resOk p.2.result = true) →
      (SubmitToCT pub verify servers true leafDER).ret = none) ∧
    ((∀ p ∈ perLogResults pub verify servers, resOk p.2.result = false) →
      (SubmitToCT pub verify servers true leafDER).ret =
        some (.perLog ((perLogResults pub verify servers).filterMap
          fun p => errOf p.2.result)) ∧
      ((perLogResults pub verify servers).filterMap
          fun p => errOf p.2.result).length = pub.ctLogs.length) := by
  have hne : pub.ctLogs.isEmpty = false := by
    simpa [List.isEmpty_iff] using hlogs
  constructor
  · intro ⟨p, hp, hok⟩
    simp only [SubmitToCT]
    rw [if_neg (by simp), if_neg (by simp [hne])]
    have hany : (perLogResults pub verify servers).any
        (fun p => resOk p.2.result) = true :=
      List.any_eq_true.mpr ⟨p, hp, hok⟩
    simp [hany]
  · intro hall
    have hany : (perLogResults pub verify servers).any
        (fun p => resOk p.2.result) = false := by
      rw [List.any_eq_false]
      intro p hp
      simp [hall p hp]
    constructor
    · simp only [SubmitToCT]
      rw [if_neg (by simp), if_neg (by simp [hne])]
      simp [hany]
    · rw [filterMap_errOf_length _ hall, perLogResults_length]

/-- C1 witness: two logs, the first failing to decode, the second
succeeding — `SubmitToCT` returns `nil`. -/
theorem submitToCT_at_least_one_check :
    (⟨[], [⟨"http://a"⟩, ⟨"http://b"⟩], 0, 0⟩ : PublisherImpl).ctLogs ≠ [] ∧
    (SubmitToCT ⟨[], [⟨"http://a"⟩, ⟨"http://b"⟩], 0, 0⟩ (fun _ => .ok ())
      (fun i _ => if i = 0 then Response.ok none
        else Response.ok (some ⟨0, 1337, [], [4, 3, 0, 0]⟩)) true []).ret = none := by
  refine ⟨by decide, ?_⟩
  apply (submitToCT_at_least_one _ (fun _ => .ok ())
    (fun i _ => if i = 0 then Response.ok none
      else Response.ok (some ⟨0, 1337, [], [4, 3, 0, 0]⟩)) [] (by decide)).1
  exact ⟨("http://b", submitOnce (fun _ => .ok ()) 0
      (fun _ => Response.ok (some ⟨0, 1337, [], [4, 3, 0, 0]⟩)) 0),
    by simp [perLogResults, List.enum, submitOnce], by decide⟩

/-! ## C4: chain structure -/

/-- C4: every dispatched submission's chain is exactly the base64 leaf
followed by the issuer bundle in order, so the leaf is `chain[0]` and the
chain is never empty; an empty issuer bundle yields the one-element chain
and no error beyond the per-log outcomes. -/
theorem submitToCT_chain (pub : PublisherImpl)
    (verify : RawSCT → Except CodecError Unit) (servers : Nat → Nat → Response)
    (leafDER : List Nat) (hlogs : pub.ctLogs ≠ []) :
    (SubmitToCT pub verify servers true leafDER).chain =
      base64StdEncode leafDER :: pub.issuerBundle ∧
    (SubmitToCT pub verify servers true leafDER).chain.head? =
      some (base64StdEncode leafDER) ∧
    1 ≤ (SubmitToCT pub verify servers true leafDER).chain.length ∧
    (pub.issuerBundle = [] →
      (SubmitToCT pub verify servers true leafDER).chain =
        [base64StdEncode leafDER] ∧
      ((SubmitToCT pub verify servers true leafDER).ret = none ∨
        ∃ errs, (SubmitToCT pub verify servers true leafDER).ret =
          some (.perLog errs))) := by
  have hne : pub.ctLogs.isEmpty = false := by
    simpa [List.isEmpty_iff] using hlogs
  have hchain : (SubmitToCT pub verify servers true leafDER).chain =
      base64StdEncode leafDER :: pub.issuerBundle := by
    simp only [SubmitToCT]
    rw [if_neg (by simp), if_neg (by simp [hne])]
    rfl
  refine ⟨hchain, by rw [hchain]; rfl, by rw [hchain]; simp, ?_⟩
  intro hb
  refine ⟨by rw [hchain, hb], ?_⟩
  simp only [SubmitToCT]
  rw [if_neg (by simp), if_neg (by simp [hne])]
  by_cases hany : (perLogResults pub verify servers).any
      (fun p => resOk p.2.result) = true
  · left; simp [hany]
  · right
    refine ⟨(perLogResults pub verify servers).filterMap
      fun p => errOf p.2.result, ?_⟩
    simp [hany]

/-- C4 witness: one log, empty issuer bundle, a one-byte leaf. -/
theorem submitToCT_chain_check :
    (⟨[], [⟨"http://a"⟩], 0, 0⟩ : PublisherImpl).ctLogs ≠ [] ∧
    (SubmitToCT ⟨[], [⟨"http://a"⟩], 0, 0⟩ (fun _ => .ok ())
      (fun _ _ => Response.ok none) true [255]).chain =
      [('/' :: 'w' :: '=' :: '=' :: [])] := by
  refine ⟨by decide, ?_⟩
  have h := (submitToCT_chain ⟨[], [⟨"http://a"⟩], 0, 0⟩ (fun _ => .ok ())
    (fun _ _ => Response.ok none) [255] (by decide)).2.2.2 rfl
  rw [h.1]
  decide

/-! ## C7: truncated signature envelopes -/

/-- C7: envelope parsing fails with `SignatureTruncated` exactly when the
signature has fewer than four envelope bytes or its embedded length exceeds
the remaining bytes; an empty signature (`{"signature":""}`) makes
verification fail this way, and a submission receiving such a response
fails with exactly one `SCT signature is truncated` log line. -/
theorem truncated_signature (derVerify : List Nat → Except CodecError Unit) :
    (∀ sig : List Nat, parseEnvelope sig = .error .truncated ↔
      sig.length < 4 ∨ sig.length < 4 + embeddedLen sig) ∧
    (∀ sct : RawSCT, sct.signature = [] →
      verifySCT derVerify sct = .error .truncated) ∧
    (∀ (uri : String) (bundle : List (List Char)) (backoff retries : Nat)
        (servers : Nat → Nat → Response) (leafDER : List Nat) (sct : RawSCT),
      sct.signature = [] → (∀ i j, servers i j = Response.ok (some sct)) →
      (SubmitToCT ⟨bundle, [⟨uri⟩], backoff, retries⟩ (verifySCT derVerify)
          servers true leafDER).ret =
        some (.perLog [.verificationFailure .truncated]) ∧
      (SubmitToCT ⟨bundle, [⟨uri⟩], backoff, retries⟩ (verifySCT derVerify)
          servers true leafDER).lines.map (fun l => errMsg l.kind) =
        ["SCT signature is truncated"]) := by
  refine ⟨?_, ?_, ?_⟩
  · intro sig
    match sig with
    | [] => simp [parseEnvelope, embeddedLen]
    | [a] => simp [parseEnvelope, embeddedLen]
    | [a, b] => simp [parseEnvelope, embeddedLen]
    | [a, b, c] => simp [parseEnvelope, embeddedLen]
    | h :: a :: hi :: lo :: rest =>
      simp only [parseEnvelope, embeddedLen]
      split
      next hlt =>
        simp only [List.length_cons, true_iff]
        right
        omega
      next hge =>
        have : ¬((h :: a :: hi :: lo :: rest).length < 4 ∨
            (h :: a :: hi :: lo :: rest).length < 4 + (hi * 256 + lo)) := by
          simp only [List.length_cons]
          omega
        exact iff_of_false (by split <;> simp) this
  · intro sct hsig
    simp [verifySCT, hsig, parseEnvelope]
  · intro uri bundle backoff retries servers leafDER sct hsig hsrv
    have hfin : handleFinal (verifySCT derVerify) (servers 0 0) =
        .error (.verificationFailure .truncated) := by
      rw [hsrv 0 0]
      simp [handleFinal, verifySCT, hsig, parseEnvelope]
    have hnr : isRetryable (servers 0 0) = false := by rw [hsrv 0 0]; rfl
    have hone : submitOnce (verifySCT derVerify) backoff (servers 0) retries =
        ⟨.error (.verificationFailure .truncated), 1, []⟩ := by
      rw [submitOnce, submitAttempts_not_retryable _ _ _ _ _ hnr, hfin]
    constructor
    · simp only [SubmitToCT]
      rw [if_neg (by simp), if_neg (by simp)]
      rw [perLogResults_single, hone]
      rfl
    · simp only [SubmitToCT]
      rw [if_neg (by simp), if_neg (by simp)]
      rw [perLogResults_single, hone]
      rfl

/-- C7 witness: one log returning a decoded SCT whose signature is empty. -/
theorem truncated_signature_check :
    (parseEnvelope [] = .error .truncated ↔
      ([] : List Nat).length < 4 ∨ ([] : List Nat).length < 4 + embeddedLen []) ∧
    (SubmitToCT ⟨[], [⟨"http://a"⟩], 0, 0⟩ (verifySCT fun _ => .ok ())
        (fun _ _ => Response.ok (some ⟨0, 1337, [], []⟩)) true []).lines.map
      (fun l => errMsg l.kind) = ["SCT signature is truncated"] :=
  ⟨((truncated_signature fun _ => .ok ()).1 []),
   ((truncated_signature fun _ => .ok ()).2.2 "http://a" [] 0 0
     (fun _ _ => Response.ok (some ⟨0, 1337, [], []⟩)) [] ⟨0, 1337, [], []⟩
     rfl (fun _ _ => rfl)).2⟩

/-! ## C8: failure logging contract -/

/-- C8: a per-log submission that terminates in failure emits exactly one
log line, whose rendering begins with the exact prefix
`Unable to submit certificate to CT log` followed by the log URI and the
error kind; a successful per-log submission emits no line, and
`SubmitToCT`'s lines are exactly the per-log emissions. -/
theorem failure_logging (uri : String) (o : LogOutcome) :
    (∀ e, o.result = .error e →
      logLines uri o = [⟨uri, e⟩] ∧
      renderFail ⟨uri, e⟩ =
        "Unable to submit certificate to CT log" ++
          (" " ++ uri ++ ": " ++ errMsg e)) ∧
    (∀ sct, o.result = .ok sct → logLines uri o = []) ∧
    (∀ (pub : PublisherImpl) verify servers (leafDER : List Nat),
      pub.ctLogs ≠ [] →
      (SubmitToCT pub verify servers true leafDER).lines =
        ((perLogResults pub verify servers).map
          fun p => logLines p.1 p.2).flatten) := by
  refine ⟨?_, ?_, ?_⟩
  · intro e he
    refine ⟨by simp [logLines, he], ?_⟩
    have hpre : ("Unable to submit certificate to CT log" ++ " " : String) =
        "Unable to submit certificate to CT log " := rfl
    simp only [renderFail, ← String.append_assoc, hpre]
  · intro sct hsct
    simp [logLines, hsct]
  · intro pub verify servers leafDER hlogs
    have hne : pub.ctLogs.isEmpty = false := by
      simpa [List.isEmpty_iff] using hlogs
    simp only [SubmitToCT]
    rw [if_neg (by simp), if_neg (by simp [hne])]

/-- C8 witness: a failed outcome logs one line with the stable prefix; a
successful outcome logs nothing. -/
theorem failure_logging_check :
    logLines "http://a" ⟨.error .transportE, 1, []⟩ =
      [⟨"http://a", .transportE⟩] ∧
    renderFail ⟨"http://a", .transportE⟩ =
      "Unable to submit certificate to CT log" ++
        (" " ++ "http://a" ++ ": " ++ errMsg .transportE) ∧
    logLines "http://a" ⟨.ok ⟨0, 0, [], []⟩, 1, []⟩ = [] :=
  ⟨((failure_logging "http://a" ⟨.error .transportE, 1, []⟩).1 .transportE rfl).1,
   ((failure_logging "http://a" ⟨.error .transportE, 1, []⟩).1 .transportE rfl).2,
   (failure_logging "http://a" ⟨.ok ⟨0, 0, [], []⟩, 1, []⟩).2.1 ⟨0, 0, [], []⟩ rfl⟩

/-! ## C9: base64url / JSONBuffer round-trip -/

theorem charSextet_sextetChar : ∀ s, s < 64 → charSextet (sextetChar s) = some s := by
  decide

theorem sextetChar_ne_of_ne (s : Nat) (x : Char)
    (hlt : ∀ t, t < 64 → sextetChar t ≠ x) (hd : 'A' ≠ x) : sextetChar s ≠ x := by
  by_cases h : s < 64
  · exact hlt s h
  · unfold sextetChar sextetCharIn
    rw [List.getD_eq_default]
    · exact hd
    · have : b64URLAlphabet.length = 64 := by decide
      omega

theorem sextetChar_ne_eq (s : Nat) : sextetChar s ≠ '=' :=
  sextetChar_ne_of_ne s '=' (by decide) (by decide)

theorem sextetChar_ne_quote (s : Nat) : sextetChar s ≠ '"' :=
  sextetChar_ne_of_ne s '"' (by decide) (by decide)

theorem encodeGroups_structure : ∀ data, ∃ core,
    encodeGroups data = core ++ List.replicate (padCount data) '=' ∧
    (∀ c ∈ core, ∃ s, c = sextetChar s) ∧
    (core.length + padCount data) % 4 = 0 ∧ padCount data ≤ 2 ∧
    (core = [] ↔ data = []) := by
  intro data
  induction data using chunk3Induction with
  | h0 => exact ⟨[], rfl, by simp, by simp [padCount], by simp [padCount], by simp⟩
  | h1 a =>
    refine ⟨[sextetChar (a / 4), sextetChar (a % 4 * 16)], rfl, ?_, by simp [padCount], by simp [padCount], by simp⟩
    intro c hc
    simp only [List.mem_cons, List.not_mem_nil, or_false] at hc
    rcases hc with rfl | rfl
    · exact ⟨a / 4, rfl⟩
    · exact ⟨a % 4 * 16, rfl⟩
  | h2 a b =>
    refine ⟨[sextetChar (a / 4), sextetChar (a % 4 * 16 + b / 16),
      sextetChar (b % 16 * 4)], rfl, ?_, by simp [padCount], by simp [padCount], by simp⟩
    intro c hc
    simp only [List.mem_cons, List.not_mem_nil, or_false] at hc
    rcases hc with rfl | rfl | rfl
    · exact ⟨a / 4, rfl⟩
    · exact ⟨a % 4 * 16 + b / 16, rfl⟩
    · exact ⟨b % 16 * 4, rfl⟩
  | h3 a b c rest ih =>
    obtain ⟨core, henc, hmem, hmod, hpadle, hnil⟩ := ih
    refine ⟨sextetChar (a / 4) :: sextetChar (a % 4 * 16 + b / 16) ::
      sextetChar (b % 16 * 4 + c / 64) :: sextetChar (c % 64) :: core, ?_, ?_, ?_, ?_, ?_⟩
    · show sextetChar (a / 4) :: sextetChar (a % 4 * 16 + b / 16) ::
        sextetChar (b % 16 * 4 + c / 64) :: sextetChar (c % 64) ::
        encodeGroups rest = _
      rw [henc]
      simp [padCount]
    · intro x hx
      simp only [List.mem_cons] at hx
      rcases hx with rfl | rfl | rfl | rfl | h
      · exact ⟨a / 4, rfl⟩
      · exact ⟨a % 4 * 16 + b / 16, rfl⟩
      · exact ⟨b % 16 * 4 + c / 64, rfl⟩
      · exact ⟨c % 64, rfl⟩
      · exact hmem x h
    · simp only [List.length_cons, padCount]
      omega
    · simpa [padCount] using hpadle
    · simp

theorem dropWhile_eq_replicate_append (k : Nat) (r : List Char) :
    List.dropWhile (· == '=') (List.replicate k '=' ++ r) =
      List.dropWhile (· == '=') r := by
  induction k with
  | zero => rfl
  | succ k ih => simp [List.replicate_succ, List.dropWhile_cons, ih]

theorem dropWhile_eq_self_of_ne (l : List Char) (h : ∀ c ∈ l, c ≠ '=') :
    List.dropWhile (· == '=') l = l := by
  cases l with
  | nil => rfl
  | cons a t =>
    rw [List.dropWhile_cons, if_neg]
    simp [h a (List.mem_cons_self a t)]

theorem trimEq_core (core : List Char) (pad : Nat) (h : ∀ c ∈ core, c ≠ '=') :
    trimEq (core ++ List.replicate pad '=') = core := by
  unfold trimEq
  rw [List.reverse_append, List.reverse_replicate, dropWhile_eq_replicate_append,
    dropWhile_eq_self_of_ne _ (fun c hc => h c (List.mem_reverse.mp hc)),
    List.reverse_reverse]

theorem decodeGroups_encodeGroups :
    ∀ data, (∀ b ∈ data, b < 256) → decodeGroups (encodeGroups data) = some data := by
  intro data
  induction data using chunk3Induction with
  | h0 => intro _; rfl
  | h1 a =>
    intro h
    have ha : a < 256 := h a (by simp)
    have hx : charSextet (sextetChar (a / 4)) = some (a / 4) :=
      charSextet_sextetChar _ (by omega)
    have hy : charSextet (sextetChar (a % 4 * 16)) = some (a % 4 * 16) :=
      charSextet_sextetChar _ (by omega)
    show decodeGroups [sextetChar (a / 4), sextetChar (a % 4 * 16), '=', '='] = some [a]
    simp only [decodeGroups, decodeQuad, hx, hy, List.isEmpty_cons]
    norm_num
    omega
  | h2 a b =>
    intro h
    have ha : a < 256 := h a (by simp)
    have hb : b < 256 := h b (by simp)
    have hx : charSextet (sextetChar (a / 4)) = some (a / 4) :=
      charSextet_sextetChar _ (by omega)
    have hy : charSextet (sextetChar (a % 4 * 16 + b / 16)) = some (a % 4 * 16 + b / 16) :=
      charSextet_sextetChar _ (by omega)
    have hz : charSextet (sextetChar (b % 16 * 4)) = some (b % 16 * 4) :=
      charSextet_sextetChar _ (by omega)
    show decodeGroups [sextetChar (a / 4), sextetChar (a % 4 * 16 + b / 16),
      sextetChar (b % 16 * 4), '='] = some [a, b]
    simp only [decodeGroups, decodeQuad, hx, hy, hz, List.isEmpty_cons,
      sextetChar_ne_eq, if_neg, if_pos]
    norm_num [sextetChar_ne_eq]
    constructor
    · omega
    · omega
  | h3 a b c rest ih =>
    intro h
    have ha : a < 256 := h a (by simp)
    have hb : b < 256 := h b (by simp)
    have hc : c < 256 := h c (by simp)
    have hrest : ∀ x ∈ rest, x < 256 := fun x hx => h x (by simp [hx])
    have hx : charSextet (sextetChar (a / 4)) = some (a / 4) :=
      charSextet_sextetChar _ (by omega)
    have hy : charSextet (sextetChar (a % 4 * 16 + b / 16)) = some (a % 4 * 16 + b / 16) :=
      charSextet_sextetChar _ (by omega)
    have hz : charSextet (sextetChar (b % 16 * 4 + c / 64)) = some (b % 16 * 4 + c / 64) :=
      charSextet_sextetChar _ (by omega)
    have hw : charSextet (sextetChar (c % 64)) = some (c % 64) :=
      charSextet_sextetChar _ (by omega)
    show decodeGroups (sextetChar (a / 4) :: sextetChar (a % 4 * 16 + b / 16) ::
      sextetChar (b % 16 * 4 + c / 64) :: sextetChar (c % 64) ::
      encodeGroups rest) = some (a :: b :: c :: rest)
    simp only [decodeGroups, decodeQuad, hx, hy, hz, hw, ih hrest,
      if_neg (sextetChar_ne_eq (b % 16 * 4 + c / 64)),
      if_neg (sextetChar_ne_eq (c % 64))]
    norm_num
    refine ⟨by omega, by omega, by omega⟩

/-- C9: `base64URLDecode` inverts `base64URLEncode` on every byte sequence
(padding stripped on encode is restored on decode), and `JSONBuffer`'s
`MarshalJSON` followed by `UnmarshalJSON` is the identity on the underlying
bytes. -/
theorem base64_roundtrip (data : List Nat) (h : ∀ b ∈ data, b < 256) :
    base64URLDecode (base64URLEncode data) = some data ∧
    jsonBufferUnmarshal (jsonBufferMarshal data) = some data := by
  obtain ⟨core, henc, hmem, hmod, hpadle, hnil⟩ := encodeGroups_structure data
  have hne : ∀ c ∈ core, c ≠ '=' := by
    intro c hcm
    obtain ⟨s, rfl⟩ := hmem c hcm
    exact sextetChar_ne_eq s
  have htrim : base64URLEncode data = core := by
    rw [base64URLEncode, henc, trimEq_core _ _ hne]
  have hadd : addPadding core = encodeGroups data := by
    rw [henc, addPadding]
    have : (4 - core.length % 4) % 4 = padCount data := by omega
    rw [this]
  have hdec : base64URLDecode (base64URLEncode data) = some data := by
    rw [htrim, base64URLDecode, hadd, decodeGroups_encodeGroups data h]
  refine ⟨hdec, ?_⟩
  rw [jsonBufferMarshal, htrim]
  show jsonBufferUnmarshal ('"' :: (core ++ ['"'])) = some data
  have hnq : '"' ∉ core := by
    intro hq
    obtain ⟨s, hs⟩ := hmem '"' hq
    exact sextetChar_ne_quote s hs.symm
  have hcond : (core ++ ['"']).getLast? = some '"' ∧ '"' ∉ (core ++ ['"']).dropLast := by
    rw [List.getLast?_concat, List.dropLast_concat]
    exact ⟨rfl, hnq⟩
  simp only [jsonBufferUnmarshal]
  rw [if_pos hcond, List.dropLast_concat, base64URLDecode, hadd,
    decodeGroups_encodeGroups data h]

/-- C9 witness: the bytes `[104, 101, 108, 108, 111]` (ASCII `hello`). -/
theorem base64_roundtrip_check :
    (∀ b ∈ [104, 101, 108, 108, 111], b < 256) ∧
    (base64URLDecode (base64URLEncode [104, 101, 108, 108, 111]) =
        some [104, 101, 108, 108, 111] ∧
      jsonBufferUnmarshal (jsonBufferMarshal [104, 101, 108, 108, 111]) =
        some [104, 101, 108, 108, 111]) :=
  ⟨by decide, base64_roundtrip [104, 101, 108, 108, 111] (by decide)⟩

end Boulder
